import Mathlib

/-!
Verification development for the resumable, deduplicating large-file upload
service (browser-side upload engine plus server-side chunk store and assembly
service).

The definitions below are a shallow embedding of the repository's code:

* `ChunkSplitor.split` together with the `chunks` handler that folds per-chunk
  digests into the whole-file digest (frontend `ChunkSplitor` /
  `MultiThreadSplitor` / `SingleThreadSplitor`);
* the server-side content-addressed chunk store (`ChunkService.saveChunk`) and
  the assembly of a completed session (`FileService.getMergedFilePath`,
  `FileService.mergeFile`, `UploadController.mergeFile` on the backend);
* the client task scheduler (`TaskQueue`);
* the client upload controller (`UploadController` on the frontend).

Modelling conventions, used throughout:

* Byte buffers are `List Nat`.
* A streaming content hash (spark-md5 / node crypto md5) is modelled by the
  sequence of values fed to it: appending is list append, finalizing returns
  the accumulated sequence.  Digest values are abstract (`Nat` for the client
  model; a type parameter with an arbitrary digest function for the server
  store, so that collision-freedom can be stated as injectivity).
* Asynchronous callbacks are modelled by explicit operation lists consumed by
  step functions; the set of operation sequences over-approximates the set of
  schedules the event loop can produce.
-/

/-- Byte buffers (JS `Blob` / node `Buffer` contents). -/
abbrev Bytes := List Nat

/-- `Math.ceil (a / b)` on naturals, as the repository computes chunk and
worker batch counts. -/
def natCeilDiv (a b : Nat) : Nat := (a + b - 1) / b

/-! ## Chunk splitter (frontend `Chunk.ts`, `ChunkSplitor.ts`,
`MultiThreadSplitor.ts`, `SingleThreadSplitor.ts`) -/

/-- A chunk descriptor (`Chunk.ts`).  `endPos` embeds the source field `end`
(a Lean keyword); `blobSize` is the byte length of the `blob` slice; `hash` is
the chunk digest (the source's hex string, abstracted to `Nat`, with `0`
standing for the initial empty string). -/
structure Chunk where
  start : Nat
  endPos : Nat
  blobSize : Nat
  hash : Nat
  index : Nat
  deriving DecidableEq, Repr

/-- `createChunk(file, index, chunkSize)`: `start = index * chunkSize`,
`end = min((index + 1) * chunkSize, file.size)`, `blob = file.slice(start, end)`,
`hash` initially empty. -/
def createChunk (fileSize index chunkSize : Nat) : Chunk :=
  { start := index * chunkSize
    endPos := min ((index + 1) * chunkSize) fileSize
    blobSize := min ((index + 1) * chunkSize) fileSize - index * chunkSize
    hash := 0
    index := index }

/-- The splitter constructor's chunk list:
`chunkCount = Math.ceil(file.size / chunkSize)` descriptors. -/
def splitorChunks (fileSize chunkSize : Nat) : List Chunk :=
  (List.range (natCeilDiv fileSize chunkSize)).map
    (fun i => createChunk fileSize i chunkSize)

/-- Events emitted by `ChunkSplitor.split` (`chunks`, `wholeHash`, `drain`).
The whole-file digest is modelled by the sequence of per-chunk digests fed to
the fresh spark-md5 instance, in feeding order. -/
inductive SplitEvent where
  | chunksEv (batch : List Chunk)
  | wholeHashEv (digest : List Nat)
  | drainEv
  deriving DecidableEq, Repr

/-- Mutable state of a `ChunkSplitor` during `split()`: the spark accumulator
(the digests appended so far, in order), the count of digested chunks, and the
events emitted so far. -/
structure SplitAcc where
  sparkAcc : List Nat
  handleChunkCount : Nat
  events : List SplitEvent
  deriving DecidableEq, Repr

/-- The `chunksHandler` inside `ChunkSplitor.split`: emit `chunks`, append each
batch digest to the spark accumulator (in batch order), bump the handled count,
and when every chunk has been handled emit `wholeHash` (the spark finalization)
followed by `drain`. -/
def chunksHandler (total : Nat) (acc : SplitAcc) (batch : List Chunk) : SplitAcc :=
  let sparkAcc := acc.sparkAcc ++ batch.map (fun c => c.hash)
  let handled := acc.handleChunkCount + batch.length
  if handled = total then
    { sparkAcc := sparkAcc
      handleChunkCount := handled
      events := acc.events ++
        [SplitEvent.chunksEv batch, SplitEvent.wholeHashEv sparkAcc, SplitEvent.drainEv] }
  else
    { sparkAcc := sparkAcc
      handleChunkCount := handled
      events := acc.events ++ [SplitEvent.chunksEv batch] }

/-- Run `split()` against a given arrival order of digested chunk batches.
`chunks` is the splitter's constructor chunk list; `batches` is the order in
which `calcHash` delivers digested batches on the orchestration thread (worker
messages are consumed serially). -/
def splitRun (chunks : List Chunk) (batches : List (List Chunk)) : SplitAcc :=
  batches.foldl (chunksHandler chunks.length) ⟨[], 0, []⟩

/-- The batches `MultiThreadSplitor.calcHash` hands to its workers: contiguous
slices of `Math.ceil(chunks.length / workerCount)` chunks, with empty slices
skipped (`if (workerChunks.length === 0) continue`).  Each worker posts its
slice back as one batch; arrival order is any permutation of this list. -/
def multiThreadBatches (workerCount : Nat) (chunks : List Chunk) : List (List Chunk) :=
  let workerSize := natCeilDiv chunks.length workerCount
  (((List.range workerCount).map (fun i =>
      (chunks.drop (i * workerSize)).take
        (min ((i + 1) * workerSize) chunks.length - i * workerSize))).filter
    (fun b => !b.isEmpty))

/-- The batches the single-thread fallback emits: consecutive groups of
`batchSize` chunks, in order.  (Faithful for `batchSize ≥ 1`; the source never
runs it with `0`.) -/
def singleThreadBatches (batchSize : Nat) : List Chunk → List (List Chunk)
  | [] => []
  | c :: rest =>
    (c :: rest).take batchSize :: singleThreadBatches batchSize (rest.drop (batchSize - 1))
termination_by l => l.length
decreasing_by
  simp only [List.length_cons, List.length_drop]
  omega

/-- The whole-file digest the specification prescribes: the per-chunk digests
fed into a fresh hash strictly in chunk-index order.  For a splitter chunk list
(already index-ordered) that is the list of its digests. -/
def indexOrderFold (chunks : List Chunk) : List Nat :=
  chunks.map (fun c => c.hash)

/-! ### Claims C1 and C10 -/

/-- Concrete digested descriptors for a two-chunk file, used as the C1
failing input. -/
def chunkA : Chunk := { start := 0, endPos := 5, blobSize := 5, hash := 10, index := 0 }

/-- Second digested descriptor of the two-chunk failing input. -/
def chunkB : Chunk := { start := 5, endPos := 10, blobSize := 5, hash := 11, index := 1 }

/-- C1.  The code violates the claim: `ChunkSplitor.split` appends per-chunk
digests to the spark accumulator in batch-arrival order, not in chunk-index
order.  With two chunks split across two workers, the arrival order in which
chunk 1's batch lands first is a permutation of the worker batches, yet the
emitted `wholeHash` is the fold of `[digest 1, digest 0]`, different from the
index-order fold `[digest 0, digest 1]` demanded by the specification. -/
theorem wholeHash_follows_arrival_order_not_index_order :
    [[chunkB], [chunkA]].Perm (multiThreadBatches 2 [chunkA, chunkB]) ∧
    SplitEvent.wholeHashEv [11, 10] ∈ (splitRun [chunkA, chunkB] [[chunkB], [chunkA]]).events ∧
    indexOrderFold [chunkA, chunkB] = [10, 11] ∧
    SplitEvent.wholeHashEv [11, 10] ≠ SplitEvent.wholeHashEv [10, 11] := by
  refine ⟨?_, ?_, ?_, ?_⟩ <;> decide

/-- C10.  A zero-byte file yields `Math.ceil(0 / chunkSize) = 0` chunk
descriptors; `MultiThreadSplitor.calcHash` skips every (empty) worker slice and
the single-thread fallback's loop never iterates, so no `chunks` batch is ever
delivered; the completion check lives only inside the `chunks` handler, hence
`split()` emits no `chunks`, `wholeHash`, or `drain` event at all. -/
theorem split_zero_chunks_emits_nothing (chunkSize workerCount batchSize : Nat)
    (batches : List (List Chunk))
    (hperm : batches.Perm (multiThreadBatches workerCount (splitorChunks 0 chunkSize))) :
    splitorChunks 0 chunkSize = [] ∧
    multiThreadBatches workerCount (splitorChunks 0 chunkSize) = [] ∧
    singleThreadBatches batchSize (splitorChunks 0 chunkSize) = [] ∧
    (splitRun (splitorChunks 0 chunkSize) batches).events = [] := by
  have hchunks : splitorChunks 0 chunkSize = [] := by
    unfold splitorChunks natCeilDiv
    have hz : (0 + chunkSize - 1) / chunkSize = 0 := by
      rcases Nat.eq_zero_or_pos chunkSize with h | h
      · simp [h]
      · exact Nat.div_eq_of_lt (by omega)
    rw [hz]
    rfl
  have hmulti : multiThreadBatches workerCount (splitorChunks 0 chunkSize) = [] := by
    rw [hchunks]
    unfold multiThreadBatches
    induction workerCount with
    | zero => simp
    | succ n ih =>
      simp only [List.range_succ, List.map_append, List.filter_append]
      simp_all
  have hbatches : batches = [] := List.Perm.eq_nil (hmulti ▸ hperm)
  refine ⟨hchunks, hmulti, ?_, ?_⟩
  · rw [hchunks]
    simp [singleThreadBatches]
  · rw [hbatches]
    rfl

/-- C10 witness: the default chunk size and four workers on a zero-byte file. -/
theorem split_zero_chunks_emits_nothing_witness :
    ([] : List (List Chunk)).Perm (multiThreadBatches 4 (splitorChunks 0 (5 * 1024 * 1024))) ∧
    (splitRun (splitorChunks 0 (5 * 1024 * 1024)) []).events = [] := by
  have hp : ([] : List (List Chunk)).Perm
      (multiThreadBatches 4 (splitorChunks 0 (5 * 1024 * 1024))) := by
    decide
  exact ⟨hp, (split_zero_chunks_emits_nothing (5 * 1024 * 1024) 4 3 [] hp).2.2.2⟩

/-! ## Content-addressed chunk store and assembly (backend `chunkService.js`,
`fileService.js`, `uploadController.js`) -/

/-- Integrity failure of `ChunkService.saveChunk` (the thrown hash-mismatch
error). -/
inductive SaveError where
  | hashMismatch
  deriving DecidableEq, Repr

/-- The chunk store: contents of `uploads/chunks/<hh>/<digest>.chunk`, as an
association of digest keys to stored bytes.  The digest type `δ` and the
digest function are parameters so that collision-freedom can be stated as
injectivity. -/
abbrev Store (δ : Type) := List (δ × Bytes)

/-- Does a chunk file for this digest exist (`FileUtils.fileExists` on
`getChunkPath`)? -/
def lookupStore {δ : Type} [DecidableEq δ] (s : Store δ) (d : δ) : Option Bytes :=
  (s.find? (fun p => decide (p.1 = d))).map (fun p => p.2)

/-- `ChunkService.chunkExists`. -/
def chunkExists {δ : Type} [DecidableEq δ] (s : Store δ) (d : δ) : Bool :=
  (lookupStore s d).isSome

/-- `ChunkService.saveChunk(chunkHash, chunkData)`: skip the write when the
path already exists; otherwise recompute the digest of the received bytes and
fail with an integrity error when it disagrees with the claimed digest; else
write the chunk. -/
def saveChunk {δ : Type} [DecidableEq δ] (hash : Bytes → δ) (s : Store δ)
    (chunkHash : δ) (chunkData : Bytes) : Except SaveError (Store δ) :=
  if chunkExists s chunkHash then .ok s
  else if hash chunkData = chunkHash then .ok ((chunkHash, chunkData) :: s)
  else .error .hashMismatch

/-- Process a sequence of chunk-upload requests against a starting store: a
request whose `saveChunk` fails leaves the store unchanged (the request is
rejected before any write). -/
def processFrom {δ : Type} [DecidableEq δ] (hash : Bytes → δ) (s : Store δ) :
    List (δ × Bytes) → Store δ
  | [] => s
  | a :: rest =>
    match saveChunk hash s a.1 a.2 with
    | .ok s' => processFrom hash s' rest
    | .error _ => processFrom hash s rest

/-- Process a sequence of chunk-upload requests starting from an empty store. -/
def processArrivals {δ : Type} [DecidableEq δ] (hash : Bytes → δ)
    (arrivals : List (δ × Bytes)) : Store δ :=
  processFrom hash [] arrivals

/-- The chunk byte ranges of a file, as the splitter materializes them:
chunk `i` is `file.slice(i * S, min((i + 1) * S, file.size))`, and there are
`Math.ceil(file.size / S)` of them. -/
def fileChunks (S : Nat) (F : Bytes) : List Bytes :=
  (List.range (natCeilDiv F.length S)).map
    (fun i => (F.drop (i * S)).take (min ((i + 1) * S) F.length - i * S))

/-- The loop of `FileService.getMergedFilePath`: stream each digest's stored
bytes in order of the session's `chunks` list; a missing chunk fails the
read. -/
def readChunksSeq {δ : Type} [DecidableEq δ] (s : Store δ) : List δ → Option (List Bytes)
  | [] => some []
  | d :: rest =>
    match lookupStore s d with
    | none => none
    | some b => (readChunksSeq s rest).map (fun bs => b :: bs)

/-- The materialized artifact: the concatenation, in `session.chunks` order, of
each chunk's stored bytes. -/
def assembleFile {δ : Type} [DecidableEq δ] (s : Store δ) (digests : List δ) :
    Option Bytes :=
  (readChunksSeq s digests).map List.flatten

/-! ### Claim C8 -/

/-- Every pair held by the store has bytes hashing to its key. -/
def wellFormedStore {δ : Type} [DecidableEq δ] (hash : Bytes → δ) (s : Store δ) : Prop :=
  ∀ p ∈ s, hash p.2 = p.1

/-- A successful `saveChunk` preserves store well-formedness. -/
theorem wellFormedStore_saveChunk {δ : Type} [DecidableEq δ] (hash : Bytes → δ)
    {s s' : Store δ} {d : δ} {b : Bytes} (hwf : wellFormedStore hash s)
    (hok : saveChunk hash s d b = .ok s') : wellFormedStore hash s' := by
  unfold saveChunk at hok
  split at hok
  next hex =>
    injection hok with h
    exact h ▸ hwf
  next hex =>
    split at hok
    next hh =>
      injection hok with h
      intro p hp
      rw [← h] at hp
      rcases List.mem_cons.mp hp with hp | hp
      · rw [hp]
        exact hh
      · exact hwf p hp
    next hh =>
      exact absurd hok (by simp)

/-- Processing any request sequence preserves store well-formedness. -/
theorem wellFormedStore_processFrom {δ : Type} [DecidableEq δ] (hash : Bytes → δ)
    (l : List (δ × Bytes)) :
    ∀ s : Store δ, wellFormedStore hash s → wellFormedStore hash (processFrom hash s l) := by
  induction l with
  | nil => intro s hs; exact hs
  | cons a rest ih =>
    intro s hs
    unfold processFrom
    rcases hok : saveChunk hash s a.1 a.2 with s' | s'
    · exact ih s hs
    · exact ih s' (wellFormedStore_saveChunk hash hs hok)

/-- C8.  Starting from an empty store, after any sequence of
`saveChunk(claimedDigest, bytes)` requests every stored chunk's bytes hash to
its key; a request for an already-present key skips the write entirely; and a
request whose recomputed digest disagrees with the claimed one fails with the
integrity error, returning before any write. -/
theorem saveChunk_store_integrity {δ : Type} [DecidableEq δ] (hash : Bytes → δ)
    (arrivals : List (δ × Bytes)) (s : Store δ) (d : δ) (b : Bytes) :
    wellFormedStore hash (processArrivals hash arrivals) ∧
    (chunkExists s d = true → saveChunk hash s d b = .ok s) ∧
    (chunkExists s d = false → hash b ≠ d →
      saveChunk hash s d b = .error SaveError.hashMismatch) ∧
    (chunkExists s d = false → hash b = d →
      saveChunk hash s d b = .ok ((d, b) :: s)) := by
  refine ⟨?_, ?_, ?_, ?_⟩
  · exact wellFormedStore_processFrom hash arrivals [] (by intro p hp; cases hp)
  · intro hex
    simp [saveChunk, hex]
  · intro hex hne
    simp [saveChunk, hex, hne]
  · intro hex heq
    simp [saveChunk, hex, heq]

/-- C8 witness: a store holding digest `[1]`; a duplicate request is skipped, a
corrupt request is rejected, a fresh honest request is written, and a small
request sequence yields a well-formed store. -/
theorem saveChunk_store_integrity_witness :
    wellFormedStore (fun b : Bytes => b)
      (processArrivals (fun b : Bytes => b) [([2], [2]), ([3], [9]), ([2], [5])]) ∧
    saveChunk (fun b : Bytes => b) [([1], [1])] [1] [5] = .ok [([1], [1])] ∧
    saveChunk (fun b : Bytes => b) [([1], [1])] [3] [9] = .error SaveError.hashMismatch ∧
    saveChunk (fun b : Bytes => b) [([1], [1])] [2] [2] = .ok [([2], [2]), ([1], [1])] := by
  obtain ⟨h1, -, -, -⟩ :=
    saveChunk_store_integrity (fun b : Bytes => b)
      [([2], [2]), ([3], [9]), ([2], [5])] [([1], [1])] [1] [5]
  obtain ⟨-, h2, -, -⟩ :=
    saveChunk_store_integrity (fun b : Bytes => b)
      [([2], [2]), ([3], [9]), ([2], [5])] [([1], [1])] [1] [5]
  obtain ⟨-, -, h3, -⟩ :=
    saveChunk_store_integrity (fun b : Bytes => b)
      [([2], [2]), ([3], [9]), ([2], [5])] [([1], [1])] [3] [9]
  obtain ⟨-, -, -, h4⟩ :=
    saveChunk_store_integrity (fun b : Bytes => b)
      [([2], [2]), ([3], [9]), ([2], [5])] [([1], [1])] [2] [2]
  exact ⟨h1, h2 (by decide), h3 (by decide) (by decide), h4 (by decide) (by decide)⟩

/-! ### Claim C2 -/

/-- A key already bound in the store keeps its binding across any further
`saveChunk` (writes are skipped for present keys, and a newly written pair has
a key that was absent). -/
theorem lookupStore_saveChunk_of_some {δ : Type} [DecidableEq δ] (hash : Bytes → δ)
    {s s' : Store δ} {d d' : δ} {b v : Bytes}
    (hv : lookupStore s d = some v) (hok : saveChunk hash s d' b = .ok s') :
    lookupStore s' d = some v := by
  unfold saveChunk at hok
  split at hok
  next hex =>
    injection hok with h
    exact h ▸ hv
  next hex =>
    split at hok
    next hh =>
      injection hok with h
      have hne : ¬ d' = d := by
        intro he
        rw [he] at hex
        simp [chunkExists, hv] at hex
      rw [← h]
      simpa [lookupStore, List.find?, hne] using hv
    next hh =>
      exact absurd hok (by simp)

/-- A key already bound in the store keeps its binding across any further
request sequence. -/
theorem lookupStore_processFrom_of_some {δ : Type} [DecidableEq δ] (hash : Bytes → δ)
    (l : List (δ × Bytes)) :
    ∀ (s : Store δ) (d : δ) (v : Bytes), lookupStore s d = some v →
      lookupStore (processFrom hash s l) d = some v := by
  induction l with
  | nil => intro s d v hv; exact hv
  | cons a rest ih =>
    intro s d v hv
    unfold processFrom
    rcases hok : saveChunk hash s a.1 a.2 with e | s'
    · exact ih s d v hv
    · exact ih s' d v (lookupStore_saveChunk_of_some hash hv hok)

/-- In a well-formed store with an injective digest function, a binding found
under the digest of `b` can only hold `b` itself. -/
theorem lookupStore_wf_inj {δ : Type} [DecidableEq δ] {hash : Bytes → δ} {s : Store δ}
    {b v : Bytes} (hwf : wellFormedStore hash s) (hinj : Function.Injective hash)
    (hv : lookupStore s (hash b) = some v) : v = b := by
  unfold lookupStore at hv
  rcases hfind : s.find? (fun p => decide (p.1 = hash b)) with _ | pair
  · rw [hfind] at hv
    cases hv
  · rw [hfind] at hv
    injection hv with hv
    have hp := List.find?_some hfind
    have hm := List.mem_of_find?_eq_some hfind
    have h1 : pair.1 = hash b := by simpa using hp
    have h2 : hash pair.2 = hash b := by rw [hwf pair hm, h1]
    rw [← hv]
    exact hinj h2

/-- After processing a sequence of honest requests (each claimed digest is the
digest of the bytes sent), each requested digest is bound to its unique
preimage, provided the digest function is injective. -/
theorem lookupStore_processFrom_mem {δ : Type} [DecidableEq δ] (hash : Bytes → δ)
    (hinj : Function.Injective hash) (l : List (δ × Bytes)) :
    ∀ s : Store δ, wellFormedStore hash s → (∀ p ∈ l, hash p.2 = p.1) →
      ∀ b : Bytes, (hash b, b) ∈ l →
        lookupStore (processFrom hash s l) (hash b) = some b := by
  induction l with
  | nil =>
    intro s _ _ b hb
    cases hb
  | cons a rest ih =>
    intro s hwf hl b hb
    unfold processFrom
    rcases List.mem_cons.mp hb with hb | hb
    · by_cases hex : chunkExists s (hash b)
      · unfold chunkExists at hex
        obtain ⟨v, hv⟩ := Option.isSome_iff_exists.mp hex
        have hvb : v = b := lookupStore_wf_inj hwf hinj hv
        have hok : saveChunk hash s a.1 a.2 = .ok s := by
          rw [← hb]
          simp [saveChunk, chunkExists, hv]
        rw [hok]
        show lookupStore (processFrom hash s rest) (hash b) = some b
        rw [hvb] at hv
        exact lookupStore_processFrom_of_some hash rest s (hash b) b hv
      · have hok : saveChunk hash s a.1 a.2 = .ok ((hash b, b) :: s) := by
          rw [← hb]
          simp [saveChunk, hex]
        have hv0 : lookupStore ((hash b, b) :: s) (hash b) = some b := by
          simp [lookupStore, List.find?]
        rw [hok]
        show lookupStore (processFrom hash ((hash b, b) :: s) rest) (hash b) = some b
        exact lookupStore_processFrom_of_some hash rest _ _ b hv0
    · rcases hok : saveChunk hash s a.1 a.2 with e | s'
      · show lookupStore (processFrom hash s rest) (hash b) = some b
        exact ih s hwf (fun p hp => hl p (List.mem_cons_of_mem a hp)) b hb
      · show lookupStore (processFrom hash s' rest) (hash b) = some b
        exact ih s' (wellFormedStore_saveChunk hash hwf hok)
          (fun p hp => hl p (List.mem_cons_of_mem a hp)) b hb

/-- The `slice(i * S, min((i + 1) * S, size))` byte range is just `take S` of
the suffix at `i * S`. -/
theorem fileChunks_slice_take (S : Nat) (F : Bytes) (i : Nat) :
    (F.drop (i * S)).take (min ((i + 1) * S) F.length - i * S) =
      (F.drop (i * S)).take S := by
  rw [List.take_eq_take]
  simp only [List.length_drop, Nat.add_mul, Nat.one_mul]
  omega

/-- Concatenating the first `n` chunk slices of a file recovers its first
`n * S` bytes. -/
theorem flatten_range_slices (S : Nat) (F : Bytes) :
    ∀ n : Nat, ((List.range n).map (fun i => (F.drop (i * S)).take S)).flatten =
      F.take (n * S) := by
  intro n
  induction n with
  | zero => simp
  | succ n ih =>
    rw [List.range_succ, List.map_append, List.flatten_append]
    rw [ih]
    simp only [List.map_cons, List.map_nil, List.flatten_cons, List.flatten_nil,
      List.append_nil]
    rw [Nat.succ_mul, List.take_add]

/-- The chunk count covers the whole file: `size ≤ ceil(size / S) * S`. -/
theorem le_natCeilDiv_mul (a S : Nat) (hS : 0 < S) : a ≤ natCeilDiv a S * S := by
  unfold natCeilDiv
  rw [Nat.mul_comm]
  have h1 := Nat.div_add_mod (a + S - 1) S
  have h2 := Nat.mod_lt (a + S - 1) hS
  omega

/-- Concatenating all chunk byte ranges of a file recovers the file. -/
theorem fileChunks_flatten (S : Nat) (hS : 0 < S) (F : Bytes) :
    (fileChunks S F).flatten = F := by
  unfold fileChunks
  rw [List.map_congr_left (fun i _ => fileChunks_slice_take S F i)]
  rw [flatten_range_slices S F]
  exact List.take_of_length_le (le_natCeilDiv_mul F.length S hS)

/-- Reading a digest list whose every digest is bound to a known value yields
exactly those values. -/
theorem readChunksSeq_of_lookup {δ : Type} [DecidableEq δ] (s : Store δ)
    (hash : Bytes → δ) :
    ∀ l : List Bytes, (∀ b ∈ l, lookupStore s (hash b) = some b) →
      readChunksSeq s (l.map hash) = some l := by
  intro l
  induction l with
  | nil => intro _; rfl
  | cons b rest ih =>
    intro hl
    have hb := hl b (List.mem_cons_self b rest)
    have hrest := ih (fun x hx => hl x (List.mem_cons_of_mem b hx))
    simp only [List.map_cons, readChunksSeq, hb, hrest]
    rfl

/-- C2.  For a completed session whose merge received the chunk digest list in
index order, and for every order in which the session's chunks arrived at the
store, the artifact assembled on first download (stored bytes of each digest,
concatenated in `session.chunks` order) equals the original file byte for
byte.  `hinj` states collision-freedom of the content hash, the standing
assumption of the content-addressed store. -/
theorem merged_assembly_is_original {δ : Type} [DecidableEq δ] (hash : Bytes → δ)
    (hinj : Function.Injective hash) (S : Nat) (hS : 0 < S) (F : Bytes)
    (arrivals : List (δ × Bytes))
    (hperm : arrivals.Perm ((fileChunks S F).map (fun b => (hash b, b)))) :
    assembleFile (processArrivals hash arrivals) ((fileChunks S F).map hash) = some F := by
  have honest : ∀ p ∈ arrivals, hash p.2 = p.1 := by
    intro p hp
    have hp2 := hperm.subset hp
    obtain ⟨b, _, rfl⟩ := List.mem_map.mp hp2
    rfl
  have hlook : ∀ b ∈ fileChunks S F,
      lookupStore (processArrivals hash arrivals) (hash b) = some b := by
    intro b hb
    have hmem : (hash b, b) ∈ arrivals :=
      (hperm.mem_iff).mpr (List.mem_map.mpr ⟨b, hb, rfl⟩)
    exact lookupStore_processFrom_mem hash hinj arrivals []
      (fun p hp => absurd hp (List.not_mem_nil p)) honest b hmem
  unfold assembleFile
  rw [readChunksSeq_of_lookup (processArrivals hash arrivals) hash (fileChunks S F) hlook]
  show some (fileChunks S F).flatten = some F
  rw [fileChunks_flatten S hS F]

/-- C2 witness: the identity digest on a three-byte file with chunk size 2,
with the two chunks arriving in reversed order. -/
theorem merged_assembly_is_original_witness :
    0 < 2 ∧
    Function.Injective (fun b : Bytes => b) ∧
    [([3], [3]), ([1, 2], [1, 2])].Perm
      ((fileChunks 2 [1, 2, 3]).map (fun b => ((fun b : Bytes => b) b, b))) ∧
    assembleFile (processArrivals (fun b : Bytes => b) [([3], [3]), ([1, 2], [1, 2])])
      ((fileChunks 2 [1, 2, 3]).map (fun b : Bytes => b)) = some [1, 2, 3] := by
  refine ⟨by decide, fun a b hab => hab, by decide, ?_⟩
  exact merged_assembly_is_original (fun b : Bytes => b) (fun a b hab => hab) 2
    (by decide) [1, 2, 3] [([3], [3]), ([1, 2], [1, 2])] (by decide)

/-! ## Session registry and merge endpoint (backend `fileService.js`,
`uploadController.js` routes `/merge`) -/

/-- Server-side session status (`uploading`, `completed`, `failed`). -/
inductive FileStatus where
  | uploading
  | completed
  | failed
  deriving DecidableEq, Repr

/-- The access URL `generateFileUrl` builds
(`/api/upload/file/<uploadId>/<fileName>`), abstracted to its two varying
components.  Identifiers and names are abstracted to `Nat`. -/
structure FileUrl where
  urlUploadId : Nat
  urlFileName : Nat
  deriving DecidableEq, Repr

/-- A persisted session record (`uploads/metadata/<uploadId>.json`), as
`createFileRecord` shapes it.  Timestamps and file type are omitted; digests
are the server-side `Nat` abstraction of hex strings. -/
structure FileRecord where
  uploadId : Nat
  fileName : Nat
  fileSize : Nat
  status : FileStatus
  chunks : List Nat
  fileHash : Option Nat
  fileUrl : Option FileUrl
  deriving DecidableEq, Repr

/-- `FileService.getFileMetadata`: the record stored under this upload id. -/
def getFileMetadata (records : List FileRecord) (uid : Nat) : Option FileRecord :=
  records.find? (fun r => decide (r.uploadId = uid))

/-- `FileService.findFileByHash`: scan the metadata records for a completed
session with the given whole-file hash. -/
def findFileByHash (records : List FileRecord) (fh : Nat) : Option FileRecord :=
  records.find? (fun r =>
    decide (r.fileHash = some fh) && decide (r.status = FileStatus.completed))

/-- `FileService.saveFileMetadata` for an updated record: replace the record
stored under its upload id. -/
def updateRecord (records : List FileRecord) (uid : Nat) (md : FileRecord) :
    List FileRecord :=
  records.map (fun r => if r.uploadId = uid then md else r)

/-- Failures of the merge endpoint (missing parameters, missing session
record, empty chunk list, chunk absent from the store). -/
inductive MergeError where
  | missingParams
  | recordMissing
  | emptyChunks
  | chunkMissing
  deriving DecidableEq, Repr

/-- `FileService.mergeFile(uploadId, fileHash, chunks)`: load the session
record, reject an empty chunk list, verify every listed digest exists in the
chunk store, then atomically write the completed record (`chunks`, `fileHash`,
`status`, `fileUrl`). -/
def serviceMergeFile (store : Store Nat) (records : List FileRecord)
    (uploadId fh : Nat) (cs : List Nat) :
    Except MergeError (Option FileUrl × List FileRecord) :=
  match getFileMetadata records uploadId with
  | none => .error .recordMissing
  | some md =>
    if cs.isEmpty then .error .emptyChunks
    else if cs.all (fun d => chunkExists store d) then
      let u : FileUrl := { urlUploadId := uploadId, urlFileName := md.fileName }
      .ok (some u, updateRecord records uploadId
        { md with chunks := cs, fileHash := some fh, status := .completed,
                  fileUrl := some u })
    else .error .chunkMissing

/-- `UploadController.mergeFile` (the `/merge` route): reject missing
parameters; if some completed session already carries this whole-file hash,
answer with that file's URL and do nothing else; otherwise merge via the file
service. -/
def mergeEndpoint (store : Store Nat) (records : List FileRecord) (uploadId : Nat)
    (fileHash : Option Nat) (chunks : Option (List Nat)) :
    Except MergeError (Option FileUrl × List FileRecord) :=
  match fileHash, chunks with
  | some fh, some cs =>
    match findFileByHash records fh with
    | some existing => .ok (existing.fileUrl, records)
    | none => serviceMergeFile store records uploadId fh cs
  | _, _ => .error .missingParams

/-! ### Claim C9 -/

/-- C9.  When a merge request finds an already-completed session with the
requested whole-file hash, the endpoint answers with that file's URL and
returns the records unchanged; in particular the requesting session's own
fresh record keeps status `uploading`, an empty `chunks` list, and `null`
`fileHash` and `fileUrl`. -/
theorem merge_dedup_leaves_requesting_session_unchanged (store : Store Nat)
    (records : List FileRecord) (uploadId fh : Nat) (cs : List Nat)
    (existing r : FileRecord)
    (hfind : findFileByHash records fh = some existing)
    (hrec : getFileMetadata records uploadId = some r)
    (hstatus : r.status = FileStatus.uploading) (hchunks : r.chunks = [])
    (hhash : r.fileHash = none) (hurl : r.fileUrl = none) :
    mergeEndpoint store records uploadId (some fh) (some cs) =
      .ok (existing.fileUrl, records) ∧
    ∃ r2, getFileMetadata records uploadId = some r2 ∧
      r2.status = FileStatus.uploading ∧ r2.chunks = [] ∧
      r2.fileHash = none ∧ r2.fileUrl = none := by
  constructor
  · simp only [mergeEndpoint, hfind]
  · exact ⟨r, hrec, hstatus, hchunks, hhash, hurl⟩

/-- C9 witness: a fresh session (id 1) merging while a completed session
(id 2) already carries the same whole-file hash 7. -/
theorem merge_dedup_leaves_requesting_session_unchanged_witness :
    mergeEndpoint [] [
      { uploadId := 1, fileName := 4, fileSize := 3, status := .uploading,
        chunks := [], fileHash := none, fileUrl := none },
      { uploadId := 2, fileName := 5, fileSize := 3, status := .completed,
        chunks := [8, 9], fileHash := some 7,
        fileUrl := some { urlUploadId := 2, urlFileName := 5 } }] 1 (some 7) (some [8, 9]) =
      .ok (some { urlUploadId := 2, urlFileName := 5 }, [
        { uploadId := 1, fileName := 4, fileSize := 3, status := .uploading,
          chunks := [], fileHash := none, fileUrl := none },
        { uploadId := 2, fileName := 5, fileSize := 3, status := .completed,
          chunks := [8, 9], fileHash := some 7,
          fileUrl := some { urlUploadId := 2, urlFileName := 5 } }]) := by
  exact (merge_dedup_leaves_requesting_session_unchanged [] _ 1 7 [8, 9]
    { uploadId := 2, fileName := 5, fileSize := 3, status := .completed,
      chunks := [8, 9], fileHash := some 7,
      fileUrl := some { urlUploadId := 2, urlFileName := 5 } }
    { uploadId := 1, fileName := 4, fileSize := 3, status := .uploading,
      chunks := [], fileHash := none, fileUrl := none }
    (by decide) (by decide) rfl rfl rfl rfl).1

/-! ## Task scheduler (frontend `TaskQueue.ts`) -/

/-- Scheduler status (`paused` / `running`). -/
inductive QStatus where
  | paused
  | running
  deriving DecidableEq, Repr

/-- The `TaskQueue` state: pending tasks in insertion order (the JS `Set`
iterated by `takeHeadTask`), the in-flight count `currentCount`, the status,
and the concurrency cap.  Tasks are abstracted to identifiers. -/
structure TaskQueue where
  tasks : List Nat
  currentCount : Nat
  status : QStatus
  concurrency : Nat
  deriving DecidableEq, Repr

/-- Observable scheduler events.  A `drainEv` records whether it was emitted
from `start()` (as opposed to `runNext`), and the pending and in-flight counts
of the state at the moment of emission. -/
inductive QEvent where
  | startEv
  | pauseEv
  | drainEv (fromStart : Bool) (pendingAtEmit inflightAtEmit : Nat)
  | launchEv (task : Nat)
  deriving DecidableEq, Repr

/-- `TaskQueue.runNext`: return unless running and below the cap; with no head
task, pause and emit `drain` when nothing is in flight; otherwise take the
head task, start it (in-flight count up), and recurse to fill the cap.  The
completion callback of a launched task is the separate `queueFinish`
transition. -/
def runNext (q : TaskQueue) : TaskQueue × List QEvent :=
  if q.status = QStatus.running then
    if q.currentCount < q.concurrency then
      match h : q.tasks with
      | [] =>
        if q.currentCount = 0 then
          ({ q with status := QStatus.paused },
            [QEvent.drainEv false q.tasks.length q.currentCount])
        else (q, [])
      | t :: rest =>
        let p := runNext { q with tasks := rest, currentCount := q.currentCount + 1 }
        (p.1, QEvent.launchEv t :: p.2)
    else (q, [])
  else (q, [])
termination_by q.tasks.length
decreasing_by simp [h]

/-- `TaskQueue.add` (JS `Set.add` iterates in insertion order; task objects
are fresh, so appending is faithful). -/
def queueAdd (q : TaskQueue) (t : Nat) : TaskQueue :=
  { q with tasks := q.tasks ++ [t] }

/-- `TaskQueue.start`: no-op while running; on an empty pending set emit
`drain` and return (status untouched); otherwise become running, emit `start`
and dispatch. -/
def queueStart (q : TaskQueue) : TaskQueue × List QEvent :=
  if q.status = QStatus.running then (q, [])
  else if q.tasks.isEmpty then
    (q, [QEvent.drainEv true q.tasks.length q.currentCount])
  else
    let p := runNext { q with status := QStatus.running }
    (p.1, QEvent.startEv :: p.2)

/-- `TaskQueue.pause`: set `paused` and emit `pause`; in-flight tasks keep
running. -/
def queuePause (q : TaskQueue) : TaskQueue × List QEvent :=
  ({ q with status := QStatus.paused }, [QEvent.pauseEv])

/-- `TaskQueue.clear`: drop pending tasks, then `pause()`. -/
def queueClear (q : TaskQueue) : TaskQueue × List QEvent :=
  queuePause { q with tasks := [] }

/-- `TaskQueue.setConcurrency`: clamp to at least 1; if running, try to
dispatch more. -/
def queueSetConcurrency (q : TaskQueue) (k : Nat) : TaskQueue × List QEvent :=
  let q2 : TaskQueue := { q with concurrency := max 1 k }
  if q2.status = QStatus.running then runNext q2 else (q2, [])

/-- A launched task settles (fulfilled or rejected): the `.finally` callback
decrements the in-flight count and dispatches again.  (Guarded so the model
never underflows; a settlement only exists for a launched task.) -/
def queueFinish (q : TaskQueue) : TaskQueue × List QEvent :=
  if q.currentCount = 0 then (q, [])
  else runNext { q with currentCount := q.currentCount - 1 }

/-- The scheduler operations a client (or the event loop) can perform. -/
inductive QOp where
  | add (t : Nat)
  | addAndStart (t : Nat)
  | startOp
  | pauseOp
  | clearOp
  | setConcurrency (k : Nat)
  | finish
  deriving DecidableEq, Repr

/-- One scheduler operation. -/
def queueStep (q : TaskQueue) : QOp → TaskQueue × List QEvent
  | .add t => (queueAdd q t, [])
  | .addAndStart t => queueStart (queueAdd q t)
  | .startOp => queueStart q
  | .pauseOp => queuePause q
  | .clearOp => queueClear q
  | .setConcurrency k => queueSetConcurrency q k
  | .finish => queueFinish q

/-- Run a sequence of scheduler operations, collecting all emitted events. -/
def queueRun (q : TaskQueue) : List QOp → TaskQueue × List QEvent
  | [] => (q, [])
  | op :: rest =>
    let p := queueStep q op
    let p2 := queueRun p.1 rest
    (p2.1, p.2 ++ p2.2)

/-- A freshly constructed `TaskQueue` with the given concurrency. -/
def initQueue (concurrency : Nat) : TaskQueue :=
  { tasks := [], currentCount := 0, status := QStatus.paused, concurrency := concurrency }

/-- Unfolding: `runNext` does nothing unless the queue is running. -/
theorem runNext_paused {q : TaskQueue} (hs : ¬ q.status = QStatus.running) :
    runNext q = (q, []) := by
  rw [runNext]
  simp [hs]

/-- Unfolding: `runNext` does nothing at or above the concurrency cap. -/
theorem runNext_atCap {q : TaskQueue} (hs : q.status = QStatus.running)
    (hc : ¬ q.currentCount < q.concurrency) : runNext q = (q, []) := by
  rw [runNext]
  simp [hs, hc]

/-- Unfolding: with no pending task and nothing in flight, `runNext` pauses
and emits `drain`. -/
theorem runNext_nil_zero {q : TaskQueue} (hs : q.status = QStatus.running)
    (hc : q.currentCount < q.concurrency) (ht : q.tasks = [])
    (h0 : q.currentCount = 0) :
    runNext q = ({ q with status := QStatus.paused },
      [QEvent.drainEv false q.tasks.length q.currentCount]) := by
  rw [runNext]
  rw [if_pos hs, if_pos hc]
  split
  · rw [if_pos h0]
  · rename_i t rest heq
    rw [ht] at heq
    cases heq

/-- Unfolding: with no pending task but work in flight, `runNext` returns. -/
theorem runNext_nil_pos {q : TaskQueue} (hs : q.status = QStatus.running)
    (hc : q.currentCount < q.concurrency) (ht : q.tasks = [])
    (h0 : ¬ q.currentCount = 0) : runNext q = (q, []) := by
  rw [runNext]
  rw [if_pos hs, if_pos hc]
  split
  · rw [if_neg h0]
  · rename_i t rest heq
    rw [ht] at heq
    cases heq

/-- Unfolding: with a head task and room below the cap, `runNext` launches it
and recurses. -/
theorem runNext_cons {q : TaskQueue} {t : Nat} {rest : List Nat}
    (hs : q.status = QStatus.running) (hc : q.currentCount < q.concurrency)
    (ht : q.tasks = t :: rest) :
    runNext q =
      ((runNext { q with tasks := rest, currentCount := q.currentCount + 1 }).1,
        QEvent.launchEv t ::
          (runNext { q with tasks := rest, currentCount := q.currentCount + 1 }).2) := by
  conv_lhs => rw [runNext]
  rw [if_pos hs, if_pos hc]
  split
  · rename_i heq
    rw [ht] at heq
    cases heq
  · rename_i t2 rest2 heq
    rw [ht] at heq
    injection heq with h1 h2
    subst h1
    subst h2
    rfl

/-- Every `drain` emitted by `runNext` is emitted from a state with no pending
task and nothing in flight. -/
theorem runNext_events_wf (q : TaskQueue) :
    ∀ ev ∈ (runNext q).2, ∀ b p i, ev = QEvent.drainEv b p i →
      b = false ∧ p = 0 ∧ i = 0 := by
  by_cases hs : q.status = QStatus.running
  · by_cases hc : q.currentCount < q.concurrency
    · rcases ht : q.tasks with _ | ⟨t, rest⟩
      · by_cases h0 : q.currentCount = 0
        · rw [runNext_nil_zero hs hc ht h0]
          intro ev hev b p i heq
          simp only [List.mem_singleton] at hev
          rw [hev] at heq
          injection heq with hb hp hi
          refine ⟨hb.symm, ?_, ?_⟩
          · rw [← hp, ht]
            rfl
          · rw [← hi]
            exact h0
        · rw [runNext_nil_pos hs hc ht h0]
          intro ev hev
          exact absurd hev (List.not_mem_nil ev)
      · rw [runNext_cons hs hc ht]
        intro ev hev b p i heq
        rcases List.mem_cons.mp hev with hev | hev
        · rw [hev] at heq
          cases heq
        · exact runNext_events_wf
            { q with tasks := rest, currentCount := q.currentCount + 1 } ev hev b p i heq
    · rw [runNext_atCap hs hc]
      intro ev hev
      exact absurd hev (List.not_mem_nil ev)
  · rw [runNext_paused hs]
    intro ev hev
    exact absurd hev (List.not_mem_nil ev)
termination_by q.tasks.length
decreasing_by simp [ht]

/-- `runNext` keeps the in-flight count within the concurrency cap. -/
theorem runNext_cap (q : TaskQueue) (hq : q.currentCount ≤ q.concurrency) :
    (runNext q).1.currentCount ≤ (runNext q).1.concurrency := by
  by_cases hs : q.status = QStatus.running
  · by_cases hc : q.currentCount < q.concurrency
    · rcases ht : q.tasks with _ | ⟨t, rest⟩
      · by_cases h0 : q.currentCount = 0
        · rw [runNext_nil_zero hs hc ht h0]
          exact hq
        · rw [runNext_nil_pos hs hc ht h0]
          exact hq
      · rw [runNext_cons hs hc ht]
        exact runNext_cap { q with tasks := rest, currentCount := q.currentCount + 1 } hc
    · rw [runNext_atCap hs hc]
      exact hq
  · rw [runNext_paused hs]
    exact hq
termination_by q.tasks.length
decreasing_by simp [ht]

/-- Every `drain` emitted by `start()` is emitted from a state with no pending
task (the in-flight count is unconstrained); every `drain` emitted through
dispatch additionally has nothing in flight. -/
theorem queueStart_events_wf (q : TaskQueue) :
    ∀ ev ∈ (queueStart q).2, ∀ b p i, ev = QEvent.drainEv b p i →
      p = 0 ∧ (b = false → i = 0) := by
  unfold queueStart
  split
  · intro ev hev
    exact absurd hev (List.not_mem_nil ev)
  · split
    · rename_i hemp
      intro ev hev b p i heq
      simp only [List.mem_singleton] at hev
      rw [hev] at heq
      injection heq with hb hp hi
      constructor
      · rw [← hp]
        exact List.length_eq_zero.mpr (List.isEmpty_iff.mp hemp)
      · intro hbf
        rw [← hb] at hbf
        cases hbf
    · intro ev hev b p i heq
      rcases List.mem_cons.mp hev with hev | hev
      · rw [hev] at heq
        cases heq
      · have := runNext_events_wf { q with status := QStatus.running } ev hev b p i heq
        exact ⟨this.2.1, fun _ => this.2.2⟩

/-- Every `drain` emitted by a single scheduler operation has no pending task
at emission, and `drain`s emitted through dispatch (not from `start()`) also
have nothing in flight. -/
theorem queueStep_events_wf (q : TaskQueue) (op : QOp) :
    ∀ ev ∈ (queueStep q op).2, ∀ b p i, ev = QEvent.drainEv b p i →
      p = 0 ∧ (b = false → i = 0) := by
  cases op with
  | add t =>
    intro ev hev
    exact absurd hev (List.not_mem_nil ev)
  | addAndStart t => exact queueStart_events_wf (queueAdd q t)
  | startOp => exact queueStart_events_wf q
  | pauseOp =>
    intro ev hev b p i heq
    simp only [queueStep, queuePause, List.mem_singleton] at hev
    rw [hev] at heq
    cases heq
  | clearOp =>
    intro ev hev b p i heq
    simp only [queueStep, queueClear, queuePause, List.mem_singleton] at hev
    rw [hev] at heq
    cases heq
  | setConcurrency k =>
    intro ev hev b p i heq
    simp only [queueStep, queueSetConcurrency] at hev
    split at hev
    · have := runNext_events_wf _ ev hev b p i heq
      exact ⟨this.2.1, fun _ => this.2.2⟩
    · exact absurd hev (List.not_mem_nil ev)
  | finish =>
    intro ev hev b p i heq
    simp only [queueStep, queueFinish] at hev
    split at hev
    · exact absurd hev (List.not_mem_nil ev)
    · have := runNext_events_wf _ ev hev b p i heq
      exact ⟨this.2.1, fun _ => this.2.2⟩

/-- C6 (amended).  Over every operation sequence from every starting state,
each `drain` event is emitted in a state with zero pending tasks; each `drain`
emitted through dispatch (task completion or a start that found work) is also
emitted with zero in-flight tasks.  Only the early `drain` that `start()`
emits on an empty pending set can carry a nonzero in-flight count. -/
theorem drain_emitted_only_with_no_pending (q : TaskQueue) (ops : List QOp) :
    ∀ ev ∈ (queueRun q ops).2, ∀ b p i, ev = QEvent.drainEv b p i →
      p = 0 ∧ (b = false → i = 0) := by
  induction ops generalizing q with
  | nil =>
    intro ev hev
    exact absurd hev (List.not_mem_nil ev)
  | cons op rest ih =>
    intro ev hev b p i heq
    simp only [queueRun, List.mem_append] at hev
    rcases hev with hev | hev
    · exact queueStep_events_wf q op ev hev b p i heq
    · exact ih (queueStep q op).1 ev hev b p i heq

/-- C6 witness: one task added, started, and finished under concurrency 1; the
resulting dispatch-side `drain` is emitted with no pending and no in-flight
work. -/
theorem drain_emitted_only_with_no_pending_witness :
    QEvent.drainEv false 0 0 ∈
      (queueRun (initQueue 1) [QOp.addAndStart 0, QOp.finish]).2 ∧
    (0 : Nat) = 0 ∧ (false = false → (0 : Nat) = 0) := by
  have hmem : QEvent.drainEv false 0 0 ∈
      (queueRun (initQueue 1) [QOp.addAndStart 0, QOp.finish]).2 := by
    simp [queueRun, queueStep, queueStart, queueAdd, queueFinish, runNext, initQueue]
  exact ⟨hmem, drain_emitted_only_with_no_pending (initQueue 1)
    [QOp.addAndStart 0, QOp.finish] (QEvent.drainEv false 0 0) hmem false 0 0 rfl⟩

/-- The claimed drain property: every drain is emitted with zero pending and
zero in-flight tasks. -/
def isBadDrain : QEvent → Bool
  | QEvent.drainEv _ p i => !(decide (p = 0) && decide (i = 0))
  | _ => false

/-- C6 counterexample.  Add a task and start (it launches and the pending set
empties), pause, then call `start()` again: `start()` sees an empty pending
set and emits `drain` while one task is still in flight, so the claim that
`drain` fires only with `pending = 0 AND inflight = 0` is false. -/
theorem drain_fires_with_task_in_flight :
    QEvent.drainEv true 0 1 ∈
      (queueRun (initQueue 4) [QOp.addAndStart 0, QOp.pauseOp, QOp.startOp]).2 ∧
    isBadDrain (QEvent.drainEv true 0 1) = true := by
  constructor
  · simp [queueRun, queueStep, queueStart, queueAdd, queuePause, runNext, initQueue]
  · rfl

/-- Is this operation a `setConcurrency` call? -/
def isSetConcurrency : QOp → Bool
  | QOp.setConcurrency _ => true
  | _ => false

/-- `start()` keeps the in-flight count within the cap. -/
theorem queueStart_cap (q : TaskQueue) (hq : q.currentCount ≤ q.concurrency) :
    (queueStart q).1.currentCount ≤ (queueStart q).1.concurrency := by
  unfold queueStart
  split
  · exact hq
  · split
    · exact hq
    · exact runNext_cap { q with status := QStatus.running } hq

/-- Every scheduler operation other than `setConcurrency` keeps the in-flight
count within the cap. -/
theorem queueStep_cap (q : TaskQueue) (op : QOp) (hq : q.currentCount ≤ q.concurrency)
    (hop : isSetConcurrency op = false) :
    (queueStep q op).1.currentCount ≤ (queueStep q op).1.concurrency := by
  cases op with
  | add t => exact hq
  | addAndStart t => exact queueStart_cap (queueAdd q t) hq
  | startOp => exact queueStart_cap q hq
  | pauseOp => exact hq
  | clearOp => exact hq
  | setConcurrency k => cases hop
  | finish =>
    simp only [queueStep, queueFinish]
    split
    · exact hq
    · exact runNext_cap { q with currentCount := q.currentCount - 1 }
        (le_trans (Nat.sub_le q.currentCount 1) hq)

/-- C7 (amended).  The dispatch loop never launches past the cap: in every
state reached from a fresh queue by a sequence of operations containing no
`setConcurrency` call, `inflight ≤ concurrency`; moreover every individual
operation other than `setConcurrency` preserves `inflight ≤ concurrency` from
any state.  (A `setConcurrency` narrowing the cap below the current in-flight
count is the one violation: it does not cancel in-flight work.) -/
theorem inflight_le_concurrency_without_narrowing :
    (∀ (c : Nat) (ops : List QOp), (∀ op ∈ ops, isSetConcurrency op = false) →
      (queueRun (initQueue c) ops).1.currentCount ≤
        (queueRun (initQueue c) ops).1.concurrency) ∧
    (∀ (q : TaskQueue) (op : QOp), q.currentCount ≤ q.concurrency →
      isSetConcurrency op = false →
      (queueStep q op).1.currentCount ≤ (queueStep q op).1.concurrency) := by
  have hrun : ∀ (ops : List QOp) (q : TaskQueue), q.currentCount ≤ q.concurrency →
      (∀ op ∈ ops, isSetConcurrency op = false) →
      (queueRun q ops).1.currentCount ≤ (queueRun q ops).1.concurrency := by
    intro ops
    induction ops with
    | nil => intro q hq _; exact hq
    | cons op rest ih =>
      intro q hq hops
      exact ih (queueStep q op).1
        (queueStep_cap q op hq (hops op (List.mem_cons_self op rest)))
        (fun o ho => hops o (List.mem_cons_of_mem op ho))
  exact ⟨fun c ops hops => hrun ops (initQueue c) (Nat.zero_le c) hops, queueStep_cap⟩

/-- C7 witness: a two-operation run without `setConcurrency` (concurrency 1)
ends within the cap, and a `pause` from a state at the cap stays within it. -/
theorem inflight_le_concurrency_without_narrowing_witness :
    (queueRun (initQueue 1) [QOp.addAndStart 0, QOp.finish]).1.currentCount ≤
      (queueRun (initQueue 1) [QOp.addAndStart 0, QOp.finish]).1.concurrency ∧
    (queueStep (initQueue 3) QOp.startOp).1.currentCount ≤
      (queueStep (initQueue 3) QOp.startOp).1.concurrency := by
  constructor
  · exact inflight_le_concurrency_without_narrowing.1 1 [QOp.addAndStart 0, QOp.finish]
      (by decide)
  · exact inflight_le_concurrency_without_narrowing.2 (initQueue 3) QOp.startOp
      (Nat.zero_le 3) (by decide)

/-- C7 counterexample.  With two tasks in flight under concurrency 2,
`setConcurrency(1)` narrows the cap immediately but cancels nothing, reaching
a state with `inflight = 2 > 1 = concurrency`; so the cap does not hold at
every moment under narrowing, as the claim asserts. -/
theorem narrowing_cap_leaves_inflight_above_cap :
    (queueRun (initQueue 2)
      [QOp.add 0, QOp.add 1, QOp.startOp, QOp.setConcurrency 1]).1.currentCount = 2 ∧
    (queueRun (initQueue 2)
      [QOp.add 0, QOp.add 1, QOp.startOp, QOp.setConcurrency 1]).1.concurrency = 1 ∧
    ¬ (queueRun (initQueue 2)
      [QOp.add 0, QOp.add 1, QOp.startOp, QOp.setConcurrency 1]).1.currentCount ≤
        (queueRun (initQueue 2)
          [QOp.add 0, QOp.add 1, QOp.startOp, QOp.setConcurrency 1]).1.concurrency := by
  refine ⟨?_, ?_, ?_⟩ <;>
    simp [queueRun, queueStep, queueStart, queueAdd, queueSetConcurrency, runNext, initQueue]

/-! ## Upload controller (frontend `UploadController.ts`)

The controller is modelled as a state machine driven by an explicit list of
asynchronous callbacks (splitter events, per-chunk task executions with their
transport outcomes, scheduler drains with the merge outcome, the start
failure path).  The set of operation sequences over-approximates the
schedules the event loop can produce.  The whole-file digest is the splitter
model's `List Nat`; transport replies are oracle data carried by the
operations.  `progress` / `chunkProgress` / `pause` / `resume` events and the
task-queue wiring are omitted: no claim mentions them. -/

/-- `UploadStatus` of the controller. -/
inductive UploadStatus where
  | idle
  | splitting
  | uploading
  | pausedStatus
  | merging
  | completedStatus
  | errorStatus
  deriving DecidableEq, Repr

/-- The typed errors the controller can raise (chunk retry exhaustion, merge
failure, task creation failure, absent upload token). -/
inductive CtrlError where
  | chunkUploadFailed (index : Nat)
  | mergeFailed
  | createTaskFailed
  | tokenMissing
  deriving DecidableEq, Repr

/-- Controller events tracked by the model (`statusChange`, `complete`,
`error`). -/
inductive UploadEvent where
  | statusChangeEv (st : UploadStatus)
  | completeEv (url : FileUrl)
  | errorEv (e : CtrlError)
  deriving DecidableEq, Repr

/-- Outgoing effects of the controller: a retry scheduled by `setTimeout`
with its computed delay, a task promise rejected with nobody attached to it
(`TaskQueue.runNext` runs tasks with `.finally` and no rejection handler), and
a merge request. -/
inductive CtrlAction where
  | scheduleRetry (index : Nat) (delay : ℚ)
  | taskRejected (e : CtrlError)
  | mergeRequested (digests : List Nat)

/-- Controller state: status, token, whole-file hash, accumulated chunk list,
the `uploadedChunks` set (insertion order), the `failedChunks` retry-counter
map, the byte counter, and the one-shot `_completed` flag. -/
structure Ctrl where
  status : UploadStatus
  uploadToken : Option Nat
  fileHash : Option (List Nat)
  chunks : List Chunk
  uploadedChunks : List Nat
  failedChunks : List (Nat × Nat)
  uploadedBytes : Nat
  completed : Bool
  deriving DecidableEq, Repr

/-- Controller configuration relevant to the modelled behavior. -/
structure CtrlOpts where
  retryCount : Nat
  retryDelay : ℚ

/-- `setStatus` emits `statusChange` only when the status actually changes. -/
def setStatusEvents (s : Ctrl) (st : UploadStatus) : List UploadEvent :=
  if s.status = st then [] else [UploadEvent.statusChangeEv st]

/-- `markChunkUploaded`: only on the first transition of this index into
`uploadedChunks` add the chunk's blob size to `uploadedBytes` and clear its
retry counter. -/
def markChunkUploaded (s : Ctrl) (c : Chunk) : Ctrl :=
  if c.index ∈ s.uploadedChunks then s
  else
    { s with
      uploadedChunks := s.uploadedChunks ++ [c.index]
      uploadedBytes := s.uploadedBytes + c.blobSize
      failedChunks := s.failedChunks.filter (fun p => !(decide (p.1 = c.index))) }

/-- `optimizeUploadTasks(restHashes)`: for every chunk whose hash is not in
the rest set, add its index to the `uploadedChunks` set (a JS `Set`, so the
set itself dedups) and add its blob size to `uploadedBytes` — the byte
addition is unconditional in the source. -/
def optimizeUploadTasks (s : Ctrl) (restHashes : List Nat) : Ctrl :=
  s.chunks.foldl
    (fun acc c =>
      if c.hash ∈ restHashes then acc
      else
        { acc with
          uploadedChunks :=
            if c.index ∈ acc.uploadedChunks then acc.uploadedChunks
            else acc.uploadedChunks ++ [c.index]
          uploadedBytes := acc.uploadedBytes + c.blobSize })
    s

/-- `handleUploadSuccess(fileUrl)`: gated by the one-shot `_completed` flag;
on first call set the flag, move to COMPLETED and emit `complete`. -/
def handleUploadSuccess (s : Ctrl) (url : FileUrl) : Ctrl × List UploadEvent :=
  if s.completed then (s, [])
  else
    let s2 : Ctrl := { s with completed := true }
    ({ s2 with status := UploadStatus.completedStatus },
      setStatusEvents s2 UploadStatus.completedStatus ++ [UploadEvent.completeEv url])

/-- `handleError(error)`: move to ERROR and emit `error` (no flag guard in
the source). -/
def handleError (s : Ctrl) (e : CtrlError) : Ctrl × List UploadEvent :=
  ({ s with status := UploadStatus.errorStatus },
    setStatusEvents s UploadStatus.errorStatus ++ [UploadEvent.errorEv e])

/-- `handleChunks(chunks)`: append the batch and move to UPLOADING (each
descriptor is also enqueued on the task queue; executions appear as
`chunkTask` operations). -/
def handleChunks (s : Ctrl) (batch : List Chunk) : Ctrl × List UploadEvent :=
  let s2 : Ctrl := { s with chunks := s.chunks ++ batch }
  ({ s2 with status := UploadStatus.uploading },
    setStatusEvents s2 UploadStatus.uploading)

/-- A `verify` response (`HashVerifyResponse`). -/
structure VerifyReply where
  hasFile : Bool
  url : Option FileUrl
  rest : Option (List Nat)
  deriving DecidableEq, Repr

/-- The rest-set branch of `handleWholeHash`: rearrange upload bookkeeping
when the server reported a nonempty rest list. -/
def applyRestInfo (s : Ctrl) (restOpt : Option (List Nat)) : Ctrl :=
  match restOpt with
  | some rest => if 0 < rest.length then optimizeUploadTasks s rest else s
  | none => s

/-- `handleWholeHash(hash)`: record the hash; without a token stop; a thrown
verify is logged and ignored; a `hasFile` reply carrying a URL short-circuits
to success; otherwise a nonempty rest list reshapes the bookkeeping. -/
def handleWholeHash (s : Ctrl) (h : List Nat) (reply : Option VerifyReply) :
    Ctrl × List UploadEvent :=
  match s.uploadToken with
  | none => ({ s with fileHash := some h }, [])
  | some _ =>
    match reply with
    | none => ({ s with fileHash := some h }, [])
    | some r =>
      if r.hasFile then
        match r.url with
        | some u => handleUploadSuccess { s with fileHash := some h } u
        | none => (applyRestInfo { s with fileHash := some h } r.rest, [])
      else (applyRestInfo { s with fileHash := some h } r.rest, [])

/-- `failedChunks.get(index) ?? 0`. -/
def getRetry (m : List (Nat × Nat)) (idx : Nat) : Nat :=
  ((m.find? (fun p => decide (p.1 = idx))).map (fun p => p.2)).getD 0

/-- `failedChunks.set(index, v)`. -/
def setRetry (m : List (Nat × Nat)) (idx v : Nat) : List (Nat × Nat) :=
  if (m.find? (fun p => decide (p.1 = idx))).isSome then
    m.map (fun p => if p.1 = idx then (idx, v) else p)
  else m ++ [(idx, v)]

/-- One execution of the per-chunk upload task (`uploadChunk`), with the
transport outcomes as oracles: already-uploaded chunks return at once; a
successful chunk verify or transfer marks the chunk; a failure below the
retry cap bumps the counter and schedules the same chunk after
`retryDelay * 2 ^ current * jitter`; at the cap the task throws the typed
chunk-upload error — which the scheduler's `.finally` silently drops. -/
def uploadChunk (opts : CtrlOpts) (s : Ctrl) (c : Chunk) (verifyHasFile : Bool)
    (transferOk : Bool) (jitter : ℚ) : Ctrl × List CtrlAction :=
  match s.uploadToken with
  | none => (s, [CtrlAction.taskRejected CtrlError.tokenMissing])
  | some _ =>
    if c.index ∈ s.uploadedChunks then (s, [])
    else
      let current := getRetry s.failedChunks c.index
      if verifyHasFile then (markChunkUploaded s c, [])
      else if transferOk then (markChunkUploaded s c, [])
      else if current < opts.retryCount then
        ({ s with failedChunks := setRetry s.failedChunks c.index (current + 1) },
          [CtrlAction.scheduleRetry c.index (opts.retryDelay * 2 ^ current * jitter)])
      else (s, [CtrlAction.taskRejected (CtrlError.chunkUploadFailed c.index)])

/-- `handleUploadComplete` (the `drain` handler): bail out if completed, if
chunks are still missing, or if hash or token is unknown; otherwise move to
MERGING, request the merge with the index-sorted digest list, and route the
reply to success or error. -/
def handleUploadComplete (s : Ctrl) (mergeReply : Except Unit FileUrl) :
    Ctrl × List UploadEvent × List CtrlAction :=
  if s.completed then (s, [], [])
  else if s.uploadedChunks.length < s.chunks.length then (s, [], [])
  else
    match s.fileHash, s.uploadToken with
    | some _, some _ =>
      let s2 : Ctrl := { s with status := UploadStatus.merging }
      let evs := setStatusEvents s UploadStatus.merging
      let digests :=
        ((s.chunks.mergeSort (fun a b => a.index ≤ b.index)).map (fun c => c.hash))
      match mergeReply with
      | .ok url =>
        let p := handleUploadSuccess s2 url
        (p.1, evs ++ p.2, [CtrlAction.mergeRequested digests])
      | .error _ =>
        let p := handleError s2 CtrlError.mergeFailed
        (p.1, evs ++ p.2, [CtrlAction.mergeRequested digests])
    | _, _ => (s, [], [])

/-- The asynchronous callbacks that can reach the controller. -/
inductive CtrlOp where
  | chunksArrive (batch : List Chunk)
  | wholeHashArrive (h : List Nat) (reply : Option VerifyReply)
  | chunkTask (c : Chunk) (verifyHasFile : Bool) (transferOk : Bool) (jitter : ℚ)
  | queueDrain (mergeReply : Except Unit FileUrl)
  | startFailure

/-- Dispatch one callback to its handler. -/
def ctrlStep (opts : CtrlOpts) (s : Ctrl) :
    CtrlOp → Ctrl × List UploadEvent × List CtrlAction
  | .chunksArrive batch =>
    let p := handleChunks s batch
    (p.1, p.2, [])
  | .wholeHashArrive h reply =>
    let p := handleWholeHash s h reply
    (p.1, p.2, [])
  | .chunkTask c v t j =>
    let p := uploadChunk opts s c v t j
    (p.1, [], p.2)
  | .queueDrain r => handleUploadComplete s r
  | .startFailure =>
    let p := handleError s CtrlError.createTaskFailed
    (p.1, p.2, [])

/-- Run a callback sequence, collecting events and actions. -/
def ctrlRun (opts : CtrlOpts) (s : Ctrl) :
    List CtrlOp → Ctrl × List UploadEvent × List CtrlAction
  | [] => (s, [], [])
  | op :: rest =>
    let p := ctrlStep opts s op
    let p2 := ctrlRun opts p.1 rest
    (p2.1, p.2.1 ++ p2.2.1, p.2.2 ++ p2.2.2)

/-- The controller right after `start()` succeeded in `createUploadTask`:
status SPLITTING, a token, nothing uploaded, flag down. -/
def initCtrl : Ctrl :=
  { status := UploadStatus.splitting, uploadToken := some 0, fileHash := none,
    chunks := [], uploadedChunks := [], failedChunks := [], uploadedBytes := 0,
    completed := false }

/-! ### Claim C3 -/

/-- Is this a `complete` event? -/
def isCompleteEv : UploadEvent → Bool
  | UploadEvent.completeEv _ => true
  | _ => false

/-- Is this an `error` event? -/
def isErrorEv : UploadEvent → Bool
  | UploadEvent.errorEv _ => true
  | _ => false

/-- Number of `complete` events in a trace. -/
def countComplete (evs : List UploadEvent) : Nat := evs.countP isCompleteEv

/-- Number of `error` events in a trace. -/
def countError (evs : List UploadEvent) : Nat := evs.countP isErrorEv

/-- `statusChange` emissions contain no `complete`. -/
theorem countComplete_setStatusEvents (s : Ctrl) (st : UploadStatus) :
    countComplete (setStatusEvents s st) = 0 := by
  unfold setStatusEvents
  split
  · rfl
  · rfl

/-- Counting `complete` distributes over trace concatenation. -/
theorem countComplete_append (a b : List UploadEvent) :
    countComplete (a ++ b) = countComplete a + countComplete b :=
  List.countP_append isCompleteEv a b

/-- `handleUploadSuccess` emits one `complete` exactly when the flag was
down. -/
theorem handleUploadSuccess_count (s : Ctrl) (url : FileUrl) :
    countComplete (handleUploadSuccess s url).2 =
      (if s.completed = true then 0 else 1) := by
  unfold handleUploadSuccess
  by_cases h : s.completed = true
  · simp [h]
    rfl
  · simp [h, countComplete_append, countComplete_setStatusEvents]
    rfl

/-- After `handleUploadSuccess` the one-shot flag is up. -/
theorem handleUploadSuccess_flag (s : Ctrl) (url : FileUrl) :
    (handleUploadSuccess s url).1.completed = true := by
  unfold handleUploadSuccess
  by_cases h : s.completed = true
  · simp [h]
  · simp [h]

/-- `handleError` emits no `complete`. -/
theorem handleError_count (s : Ctrl) (e : CtrlError) :
    countComplete (handleError s e).2 = 0 := by
  unfold handleError
  simp only [countComplete_append, countComplete_setStatusEvents]
  rfl

/-- `handleError` leaves the one-shot flag alone. -/
theorem handleError_flag (s : Ctrl) (e : CtrlError) :
    (handleError s e).1.completed = s.completed := rfl


/-- The empty trace has no `complete`. -/
theorem countComplete_nil : countComplete [] = 0 := rfl

/-- `optimizeUploadTasks` never touches the one-shot flag. -/
theorem optimizeUploadTasks_flag (s : Ctrl) (rest : List Nat) :
    (optimizeUploadTasks s rest).completed = s.completed := by
  unfold optimizeUploadTasks
  generalize s.chunks = l
  induction l generalizing s with
  | nil => rfl
  | cons c tl ih =>
    simp only [List.foldl_cons]
    split
    · exact ih s
    · exact ih _


/-- `applyRestInfo` never touches the one-shot flag. -/
theorem applyRestInfo_flag (s : Ctrl) (ro : Option (List Nat)) :
    (applyRestInfo s ro).completed = s.completed := by
  rcases ro with _ | rest
  · rfl
  · show (if 0 < rest.length then optimizeUploadTasks s rest else s).completed =
      s.completed
    by_cases hrest : 0 < rest.length
    · rw [if_pos hrest]
      exact optimizeUploadTasks_flag s rest
    · rw [if_neg hrest]

/-- `uploadChunk` never touches the one-shot flag. -/
theorem uploadChunk_flag (opts : CtrlOpts) (s : Ctrl) (c : Chunk) (v t : Bool)
    (j : ℚ) : (uploadChunk opts s c v t j).1.completed = s.completed := by
  unfold uploadChunk markChunkUploaded
  rcases s.uploadToken with _ | tok
  · rfl
  · by_cases hm : c.index ∈ s.uploadedChunks
    · simp [hm]
    · by_cases hv : v = true
      · simp [hm, hv]
      · by_cases ht : t = true
        · simp [hm, hv, ht]
        · by_cases hr : getRetry s.failedChunks c.index < opts.retryCount <;>
            simp [hm, hv, ht, hr]

/-- The completion budget of a one-shot flag state: one `complete` may still
be emitted while the flag is down, none once it is up. -/
def completeBudget (b : Bool) : Nat := if b = true then 0 else 1

/-- Per-step completion discipline: the `complete` events a step emits, plus
the budget remaining after it, never exceed the budget before it.  (The only
emitter of `complete` is `handleUploadSuccess`, which raises the flag it is
gated on; the flag is never lowered.) -/
theorem ctrlStep_budget (opts : CtrlOpts) (s : Ctrl) (op : CtrlOp) :
    countComplete (ctrlStep opts s op).2.1 +
      completeBudget (ctrlStep opts s op).1.completed ≤
        completeBudget s.completed := by
  cases op with
  | chunksArrive batch =>
    show countComplete (handleChunks s batch).2 +
      completeBudget (handleChunks s batch).1.completed ≤ _
    rw [show (handleChunks s batch).1.completed = s.completed from rfl]
    rw [show countComplete (handleChunks s batch).2 = 0
      from countComplete_setStatusEvents _ _]
    omega
  | wholeHashArrive h reply =>
    show countComplete (handleWholeHash s h reply).2 +
      completeBudget (handleWholeHash s h reply).1.completed ≤ _
    unfold handleWholeHash
    rcases htok : s.uploadToken with _ | tok
    · dsimp only
      rw [countComplete_nil]
      omega
    · rcases reply with _ | r
      · dsimp only
        rw [countComplete_nil]
        omega
      · dsimp only
        by_cases hf : r.hasFile = true
        · rw [if_pos hf]
          rcases hu : r.url with _ | u
          · dsimp only
            rw [countComplete_nil, applyRestInfo_flag]
            dsimp only
            omega
          · rw [handleUploadSuccess_count, handleUploadSuccess_flag]
            dsimp only
            unfold completeBudget
            by_cases hc : s.completed = true <;> simp [hc]
        · rw [if_neg hf]
          dsimp only
          rw [countComplete_nil, applyRestInfo_flag]
          dsimp only
          omega
  | chunkTask c v t j =>
    show countComplete [] +
      completeBudget (uploadChunk opts s c v t j).1.completed ≤ _
    rw [countComplete_nil, uploadChunk_flag]
    omega
  | queueDrain r =>
    show countComplete (handleUploadComplete s r).2.1 +
      completeBudget (handleUploadComplete s r).1.completed ≤ _
    unfold handleUploadComplete
    by_cases hc : s.completed = true
    · rw [if_pos hc]
      dsimp only
      rw [countComplete_nil]
      omega
    · rw [if_neg hc]
      by_cases hlen : s.uploadedChunks.length < s.chunks.length
      · rw [if_pos hlen]
        dsimp only
        rw [countComplete_nil]
        omega
      · rw [if_neg hlen]
        rcases hfh : s.fileHash with _ | fh
        · dsimp only
          rw [countComplete_nil]
          omega
        · rcases htok : s.uploadToken with _ | tok
          · dsimp only
            rw [countComplete_nil]
            omega
          · rcases r with e | url
            · dsimp only
              rw [countComplete_append, countComplete_setStatusEvents]
              rw [handleError_count, handleError_flag]
              dsimp only
              omega
            · dsimp only
              rw [countComplete_append, countComplete_setStatusEvents]
              rw [handleUploadSuccess_count, handleUploadSuccess_flag]
              dsimp only
              unfold completeBudget
              by_cases hcc : s.completed = true <;> simp [hcc]
  | startFailure =>
    show countComplete (handleError s CtrlError.createTaskFailed).2 +
      completeBudget (handleError s CtrlError.createTaskFailed).1.completed ≤ _
    rw [handleError_count, handleError_flag]
    omega

/-- Run-level completion discipline: the `complete` events of a whole run,
plus the remaining budget, never exceed the starting budget. -/
theorem ctrlRun_budget (opts : CtrlOpts) (ops : List CtrlOp) :
    ∀ s : Ctrl, countComplete (ctrlRun opts s ops).2.1 +
      completeBudget (ctrlRun opts s ops).1.completed ≤
        completeBudget s.completed := by
  induction ops with
  | nil =>
    intro s
    rw [show (ctrlRun opts s []).2.1 = [] from rfl, countComplete_nil]
    rw [show (ctrlRun opts s []).1 = s from rfl]
    omega
  | cons op rest ih =>
    intro s
    have hstep := ctrlStep_budget opts s op
    have hrest := ih (ctrlStep opts s op).1
    show countComplete ((ctrlStep opts s op).2.1 ++
      (ctrlRun opts (ctrlStep opts s op).1 rest).2.1) +
      completeBudget (ctrlRun opts (ctrlStep opts s op).1 rest).1.completed ≤ _
    rw [countComplete_append]
    omega

/-- C3 (amended).  Over every sequence of asynchronous callbacks — including
any interleaving of a whole-file verify answering `hasFile` with the
scheduler's drain — the controller emits `complete` at most once, guarded by
the one-shot `completed` flag.  (The claimed "exactly one of complete or
error" does not hold: see the zero-chunk counterexample.) -/
theorem complete_fires_at_most_once (opts : CtrlOpts) (ops : List CtrlOp) :
    countComplete (ctrlRun opts initCtrl ops).2.1 ≤ 1 := by
  have h := ctrlRun_budget opts ops initCtrl
  have hinit : completeBudget initCtrl.completed = 1 := rfl
  omega

/-- C3 counterexample.  For a zero-byte file the splitter emits no events at
all (claim C10's situation), so no `chunks` batch, no `wholeHash`, and no
task ever reaches the scheduler — the task queue receives no operation and
never drains, the callback list of the session is empty, and the controller
emits neither `complete` nor `error`, refuting "exactly one of complete(url)
or error(err) per session". -/
theorem zero_chunk_session_emits_no_outcome :
    (splitRun (splitorChunks 0 (5 * 1024 * 1024))
      (multiThreadBatches 4 (splitorChunks 0 (5 * 1024 * 1024)))).events = [] ∧
    (queueRun (initQueue 4) []).2 = [] ∧
    (ctrlRun { retryCount := 3, retryDelay := 1000 } initCtrl []).2.1 = [] ∧
    countComplete (ctrlRun { retryCount := 3, retryDelay := 1000 } initCtrl []).2.1 +
      countError (ctrlRun { retryCount := 3, retryDelay := 1000 } initCtrl []).2.1 = 0 := by
  refine ⟨?_, rfl, rfl, rfl⟩
  decide

/-! ### Claim C4 -/

/-- The chunk whose transfer fails on every attempt (C4 failing input). -/
def failingChunk : Chunk :=
  { start := 0, endPos := 5, blobSize := 5, hash := 10, index := 0 }

/-- C4.  First half as the code implements it: each of the first `retryCount`
failures increments the counter and reschedules the same chunk after
`retryDelay * 2 ^ current * jitter`.  Second half diverges from the claim:
when the counter reaches `retryCount`, `uploadChunk` throws the typed
"chunk 0 upload failed" error — but `TaskQueue.runNext` runs tasks with
`Promise.resolve(task.run()).finally(...)` and no rejection handler, so the
rejection is dropped: the controller stays in UPLOADING, emits no `error`
event, and never calls merge, instead of transitioning to ERROR as the claim
(and the spec's retry policy and state machine) require. -/
theorem chunk_retry_exhaustion_is_swallowed (j : ℚ) (hj1 : 1 / 2 ≤ j) (hj2 : j < 1) :
    (ctrlRun { retryCount := 3, retryDelay := 1000 } initCtrl
      [CtrlOp.chunksArrive [failingChunk],
       CtrlOp.chunkTask failingChunk false false j,
       CtrlOp.chunkTask failingChunk false false j,
       CtrlOp.chunkTask failingChunk false false j,
       CtrlOp.chunkTask failingChunk false false j]).2.2 =
      [CtrlAction.scheduleRetry 0 (1000 * 2 ^ (0 : Nat) * j),
       CtrlAction.scheduleRetry 0 (1000 * 2 ^ (1 : Nat) * j),
       CtrlAction.scheduleRetry 0 (1000 * 2 ^ (2 : Nat) * j),
       CtrlAction.taskRejected (CtrlError.chunkUploadFailed 0)] ∧
    (ctrlRun { retryCount := 3, retryDelay := 1000 } initCtrl
      [CtrlOp.chunksArrive [failingChunk],
       CtrlOp.chunkTask failingChunk false false j,
       CtrlOp.chunkTask failingChunk false false j,
       CtrlOp.chunkTask failingChunk false false j,
       CtrlOp.chunkTask failingChunk false false j]).1.status =
      UploadStatus.uploading ∧
    UploadStatus.uploading ≠ UploadStatus.errorStatus ∧
    (ctrlRun { retryCount := 3, retryDelay := 1000 } initCtrl
      [CtrlOp.chunksArrive [failingChunk],
       CtrlOp.chunkTask failingChunk false false j,
       CtrlOp.chunkTask failingChunk false false j,
       CtrlOp.chunkTask failingChunk false false j,
       CtrlOp.chunkTask failingChunk false false j]).2.1 =
      [UploadEvent.statusChangeEv UploadStatus.uploading] := by
  refine ⟨rfl, rfl, by decide, rfl⟩

/-- C4 witness: jitter `3/4` lies in `[1/2, 1)` and the run produces exactly
the backoff schedule and the swallowed rejection. -/
theorem chunk_retry_exhaustion_is_swallowed_witness :
    (1 / 2 ≤ (3 / 4 : ℚ)) ∧ ((3 / 4 : ℚ) < 1) ∧
    (ctrlRun { retryCount := 3, retryDelay := 1000 } initCtrl
      [CtrlOp.chunksArrive [failingChunk],
       CtrlOp.chunkTask failingChunk false false (3 / 4),
       CtrlOp.chunkTask failingChunk false false (3 / 4),
       CtrlOp.chunkTask failingChunk false false (3 / 4),
       CtrlOp.chunkTask failingChunk false false (3 / 4)]).2.2 =
      [CtrlAction.scheduleRetry 0 (1000 * 2 ^ (0 : Nat) * (3 / 4)),
       CtrlAction.scheduleRetry 0 (1000 * 2 ^ (1 : Nat) * (3 / 4)),
       CtrlAction.scheduleRetry 0 (1000 * 2 ^ (2 : Nat) * (3 / 4)),
       CtrlAction.taskRejected (CtrlError.chunkUploadFailed 0)] := by
  refine ⟨by norm_num, by norm_num, ?_⟩
  exact (chunk_retry_exhaustion_is_swallowed (3 / 4) (by norm_num) (by norm_num)).1

/-! ### Claim C5 -/

/-- The sum of the blob sizes of the chunks whose indices are in
`uploadedChunks`, sizes looked up in the controller's chunk list. -/
def sumUploadedSizes (s : Ctrl) : Nat :=
  (s.uploadedChunks.map (fun i =>
    (((s.chunks.find? (fun c => decide (c.index = i))).map
      (fun c => c.blobSize)).getD 0))).sum

/-- First chunk of the C5 counterexample session. -/
def chunkCa : Chunk := { start := 0, endPos := 10, blobSize := 10, hash := 21, index := 0 }

/-- Second chunk of the C5 counterexample session. -/
def chunkCb : Chunk := { start := 10, endPos := 20, blobSize := 10, hash := 22, index := 1 }

/-- C5 counterexample.  Chunk 0 is marked uploaded by a successful per-chunk
verify before the whole-file verify returns; the server's rest list `[22]`
names only chunk 1, so `optimizeUploadTasks` walks chunk 0 again (its hash is
not in the rest set) and adds its 10 bytes a second time: `uploadedBytes`
ends at 20 while `uploadedChunks = {0}` holds only 10 bytes of chunks —
marking is not idempotent across the whole-file verify path, and
`uploadedBytes` does not equal the sum of the uploaded chunk sizes. -/
theorem optimize_path_double_counts_uploaded_chunk :
    (ctrlRun { retryCount := 3, retryDelay := 1000 } initCtrl
      [CtrlOp.chunksArrive [chunkCa, chunkCb],
       CtrlOp.chunkTask chunkCa true true 1,
       CtrlOp.wholeHashArrive [99]
         (some { hasFile := false, url := none, rest := some [22] })]).1.uploadedBytes
      = 20 ∧
    (ctrlRun { retryCount := 3, retryDelay := 1000 } initCtrl
      [CtrlOp.chunksArrive [chunkCa, chunkCb],
       CtrlOp.chunkTask chunkCa true true 1,
       CtrlOp.wholeHashArrive [99]
         (some { hasFile := false, url := none, rest := some [22] })]).1.uploadedChunks
      = [0] ∧
    sumUploadedSizes (ctrlRun { retryCount := 3, retryDelay := 1000 } initCtrl
      [CtrlOp.chunksArrive [chunkCa, chunkCb],
       CtrlOp.chunkTask chunkCa true true 1,
       CtrlOp.wholeHashArrive [99]
         (some { hasFile := false, url := none, rest := some [22] })]).1 = 10 ∧
    ¬ (ctrlRun { retryCount := 3, retryDelay := 1000 } initCtrl
      [CtrlOp.chunksArrive [chunkCa, chunkCb],
       CtrlOp.chunkTask chunkCa true true 1,
       CtrlOp.wholeHashArrive [99]
         (some { hasFile := false, url := none, rest := some [22] })]).1.uploadedBytes
      = sumUploadedSizes (ctrlRun { retryCount := 3, retryDelay := 1000 } initCtrl
      [CtrlOp.chunksArrive [chunkCa, chunkCb],
       CtrlOp.chunkTask chunkCa true true 1,
       CtrlOp.wholeHashArrive [99]
         (some { hasFile := false, url := none, rest := some [22] })]).1 := by
  refine ⟨rfl, rfl, rfl, ?_⟩
  intro h
  simp only [show (ctrlRun { retryCount := 3, retryDelay := 1000 } initCtrl
      [CtrlOp.chunksArrive [chunkCa, chunkCb],
       CtrlOp.chunkTask chunkCa true true 1,
       CtrlOp.wholeHashArrive [99]
         (some { hasFile := false, url := none, rest := some [22] })]).1.uploadedBytes
      = 20 from rfl,
    show sumUploadedSizes (ctrlRun { retryCount := 3, retryDelay := 1000 } initCtrl
      [CtrlOp.chunksArrive [chunkCa, chunkCb],
       CtrlOp.chunkTask chunkCa true true 1,
       CtrlOp.wholeHashArrive [99]
         (some { hasFile := false, url := none, rest := some [22] })]).1 = 10
      from rfl] at h
  cases h

/-- On a chunk list with pairwise-distinct indices, looking a member chunk up
by its index finds that chunk. -/
theorem find?_by_index (chunks : List Chunk) (c : Chunk)
    (hnd : (chunks.map (fun x => x.index)).Nodup) (hc : c ∈ chunks) :
    chunks.find? (fun x => decide (x.index = c.index)) = some c := by
  induction chunks with
  | nil => cases hc
  | cons a tl ih =>
    rcases List.mem_cons.mp hc with rfl | hc2
    · rw [List.find?_cons_of_pos]
      simp
    · have hne : ¬ a.index = c.index := by
        intro he
        have hmem : c.index ∈ tl.map (fun x => x.index) :=
          List.mem_map.mpr ⟨c, hc2, rfl⟩
        have hnot : a.index ∉ tl.map (fun x => x.index) :=
          (List.nodup_cons.mp hnd).1
        rw [he] at hnot
        exact hnot hmem
      rw [List.find?_cons_of_neg]
      · exact ih (List.nodup_cons.mp hnd).2 hc2
      · simp [hne]

/-- The byte counter added by the `optimizeUploadTasks` fold: unconditionally
the sum of the blob sizes of all walked chunks whose hash is not in the rest
set. -/
theorem optimize_fold_bytes (rest : List Nat) :
    ∀ (l : List Chunk) (acc : Ctrl),
      (List.foldl
        (fun acc c =>
          if c.hash ∈ rest then acc
          else
            { acc with
              uploadedChunks :=
                if c.index ∈ acc.uploadedChunks then acc.uploadedChunks
                else acc.uploadedChunks ++ [c.index]
              uploadedBytes := acc.uploadedBytes + c.blobSize })
        acc l).uploadedBytes =
      acc.uploadedBytes +
        ((l.filter (fun x => !(decide (x.hash ∈ rest)))).map
          (fun x => x.blobSize)).sum := by
  intro l
  induction l with
  | nil =>
    intro acc
    simp
  | cons c tl ih =>
    intro acc
    rw [List.foldl_cons]
    by_cases hh : c.hash ∈ rest
    · have hcond : (!(decide (c.hash ∈ rest))) = false := by simp [hh]
      rw [if_pos hh, List.filter_cons, hcond]
      simp only [Bool.false_eq_true, if_false]
      exact ih acc
    · have hcond : (!(decide (c.hash ∈ rest))) = true := by simp [hh]
      rw [if_neg hh, List.filter_cons, hcond]
      simp only [if_true, List.map_cons, List.sum_cons]
      rw [ih]
      dsimp only
      omega

/-- The `optimizeUploadTasks` fold preserves the bytes-equals-sum invariant
when no walked chunk with hash outside the rest set is already uploaded. -/
theorem optimize_fold_invariant (rest : List Nat) (T : List Chunk)
    (hnd : (T.map (fun x => x.index)).Nodup) :
    ∀ (l : List Chunk) (acc : Ctrl), acc.chunks = T →
      (∀ x ∈ l, x ∈ T) → (l.map (fun x => x.index)).Nodup →
      (∀ x ∈ l, x.hash ∉ rest → x.index ∉ acc.uploadedChunks) →
      acc.uploadedBytes = sumUploadedSizes acc →
      (List.foldl
        (fun acc c =>
          if c.hash ∈ rest then acc
          else
            { acc with
              uploadedChunks :=
                if c.index ∈ acc.uploadedChunks then acc.uploadedChunks
                else acc.uploadedChunks ++ [c.index]
              uploadedBytes := acc.uploadedBytes + c.blobSize })
        acc l).uploadedBytes =
      sumUploadedSizes
        (List.foldl
          (fun acc c =>
            if c.hash ∈ rest then acc
            else
              { acc with
                uploadedChunks :=
                  if c.index ∈ acc.uploadedChunks then acc.uploadedChunks
                  else acc.uploadedChunks ++ [c.index]
                uploadedBytes := acc.uploadedBytes + c.blobSize })
          acc l) := by
  intro l
  induction l with
  | nil =>
    intro acc _ _ _ _ hinv
    exact hinv
  | cons c tl ih =>
    intro acc hT hmem hndl hdisj hinv
    rw [List.foldl_cons]
    by_cases hh : c.hash ∈ rest
    · rw [if_pos hh]
      exact ih acc hT (fun x hx => hmem x (List.mem_cons_of_mem c hx))
        ((List.nodup_cons.mp hndl).2)
        (fun x hx hr => hdisj x (List.mem_cons_of_mem c hx) hr) hinv
    · have hup : c.index ∉ acc.uploadedChunks :=
        hdisj c (List.mem_cons_self c tl) hh
      rw [if_neg hh, if_neg hup]
      refine ih { acc with
          uploadedChunks := acc.uploadedChunks ++ [c.index]
          uploadedBytes := acc.uploadedBytes + c.blobSize }
        hT (fun x hx => hmem x (List.mem_cons_of_mem c hx))
        ((List.nodup_cons.mp hndl).2) ?_ ?_
      · intro x hx hr hmem2
        have hmem3 : x.index ∈ acc.uploadedChunks ++ [c.index] := hmem2
        rcases List.mem_append.mp hmem3 with hmem4 | hmem4
        · exact hdisj x (List.mem_cons_of_mem c hx) hr hmem4
        · have hxi : x.index = c.index := List.mem_singleton.mp hmem4
          have hcn : c.index ∉ tl.map (fun x => x.index) :=
            (List.nodup_cons.mp hndl).1
          rw [← hxi] at hcn
          exact hcn (List.mem_map.mpr ⟨x, hx, rfl⟩)
      · show acc.uploadedBytes + c.blobSize = sumUploadedSizes _
        unfold sumUploadedSizes
        dsimp only
        rw [List.map_append, List.sum_append, hT]
        simp only [List.map_cons, List.map_nil, List.sum_cons, List.sum_nil]
        rw [find?_by_index T c hnd (hmem c (List.mem_cons_self c tl))]
        unfold sumUploadedSizes at hinv
        rw [hT] at hinv
        rw [show (((some c).map (fun c => c.blobSize)).getD 0) = c.blobSize from rfl]
        omega

/-- C5 (amended).  `markChunkUploaded` is idempotent — it adds `chunk.size`
to `uploadedBytes` exactly on the first transition of the index into
`uploadedChunks`, and it preserves `uploadedBytes = Σ sizes(uploadedChunks)`.
The whole-file verify path is different: `optimizeUploadTasks` adds
`chunk.blob.size` unconditionally for every chunk whose digest is not in the
returned rest set, even if the chunk is already uploaded; the byte-sum
invariant therefore survives that path only when no already-uploaded chunk is
walked again (e.g. when nothing was uploaded before the whole-file verify
returned). -/
theorem markUploaded_exactly_once_and_optimize_unconditional
    (s : Ctrl) (c : Chunk) (rest : List Nat) :
    (c.index ∈ s.uploadedChunks → markChunkUploaded s c = s) ∧
    (c.index ∉ s.uploadedChunks →
      (markChunkUploaded s c).uploadedBytes = s.uploadedBytes + c.blobSize ∧
      (markChunkUploaded s c).uploadedChunks = s.uploadedChunks ++ [c.index]) ∧
    ((optimizeUploadTasks s rest).uploadedBytes = s.uploadedBytes +
      ((s.chunks.filter (fun x => !(decide (x.hash ∈ rest)))).map
        (fun x => x.blobSize)).sum) ∧
    ((s.chunks.map (fun x => x.index)).Nodup → c ∈ s.chunks →
      s.uploadedBytes = sumUploadedSizes s →
      (markChunkUploaded s c).uploadedBytes =
        sumUploadedSizes (markChunkUploaded s c)) ∧
    ((s.chunks.map (fun x => x.index)).Nodup →
      (∀ x ∈ s.chunks, x.hash ∉ rest → x.index ∉ s.uploadedChunks) →
      s.uploadedBytes = sumUploadedSizes s →
      (optimizeUploadTasks s rest).uploadedBytes =
        sumUploadedSizes (optimizeUploadTasks s rest)) := by
  refine ⟨?_, ?_, ?_, ?_, ?_⟩
  · intro hm
    unfold markChunkUploaded
    rw [if_pos hm]
  · intro hm
    unfold markChunkUploaded
    rw [if_neg hm]
    exact ⟨rfl, rfl⟩
  · unfold optimizeUploadTasks
    exact optimize_fold_bytes rest s.chunks s
  · intro hnd hc hinv
    unfold markChunkUploaded
    by_cases hm : c.index ∈ s.uploadedChunks
    · rw [if_pos hm]
      exact hinv
    · rw [if_neg hm]
      show s.uploadedBytes + c.blobSize = sumUploadedSizes _
      unfold sumUploadedSizes
      dsimp only
      rw [List.map_append, List.sum_append]
      simp only [List.map_cons, List.map_nil, List.sum_cons, List.sum_nil]
      rw [find?_by_index s.chunks c hnd hc]
      unfold sumUploadedSizes at hinv
      rw [show (((some c).map (fun c => c.blobSize)).getD 0) = c.blobSize from rfl]
      omega
  · intro hnd hdisj hinv
    unfold optimizeUploadTasks
    exact optimize_fold_invariant rest s.chunks hnd s.chunks s rfl
      (fun x hx => hx) hnd hdisj hinv

/-- C5 witness: a one-chunk state exercising idempotence, the first-transition
addition, the unconditional optimize formula, and both invariant parts. -/
theorem markUploaded_exactly_once_and_optimize_unconditional_witness :
    markChunkUploaded
      { initCtrl with chunks := [chunkCa], uploadedChunks := [0], uploadedBytes := 10 }
      chunkCa =
      { initCtrl with chunks := [chunkCa], uploadedChunks := [0], uploadedBytes := 10 } ∧
    (markChunkUploaded { initCtrl with chunks := [chunkCa] } chunkCa).uploadedBytes =
      0 + 10 ∧
    (optimizeUploadTasks { initCtrl with chunks := [chunkCa] } []).uploadedBytes =
      0 + 10 ∧
    (markChunkUploaded { initCtrl with chunks := [chunkCa] } chunkCa).uploadedBytes =
      sumUploadedSizes
        (markChunkUploaded { initCtrl with chunks := [chunkCa] } chunkCa) ∧
    (optimizeUploadTasks { initCtrl with chunks := [chunkCa] } []).uploadedBytes =
      sumUploadedSizes (optimizeUploadTasks { initCtrl with chunks := [chunkCa] } []) := by
  have h1 := markUploaded_exactly_once_and_optimize_unconditional
    { initCtrl with chunks := [chunkCa], uploadedChunks := [0], uploadedBytes := 10 }
    chunkCa []
  have h2 := markUploaded_exactly_once_and_optimize_unconditional
    { initCtrl with chunks := [chunkCa] } chunkCa []
  refine ⟨h1.1 (by decide), ?_, ?_, ?_, ?_⟩
  · exact ((h2.2.1 (by decide)).1).trans (by decide)
  · exact (h2.2.2.1).trans (by decide)
  · exact h2.2.2.2.1 (by decide) (by decide) (by decide)
  · exact h2.2.2.2.2 (by decide) (by decide) (by decide)
